import Mathlib

set_option maxRecDepth 40000

/-!
Shallow embedding of the user-profile service (main.go) for checking the
natural-language specification against the code.

Conventions of the embedding:
* Go strings are Lean strings; byte lengths use String.utf8ByteSize (Go len
  on a string counts UTF-8 bytes), rune sequences use String.data.
* The relational store is a list of rows in the order the store returns
  them; the in-process cache (a Go map guarded by a RWMutex) is an
  association list with overwrite-on-insert semantics.  HTTP plumbing,
  metrics counters and the connection pool are elided: each handler is a
  pure state transformer over (store, cache).
* Time values are carried as already-formatted strings; the store row
  created by an insert records the timestamp string the handler
  interpolated into the query.
* Go regexp MatchString with the two anchored patterns of the source is
  embedded as an executable decomposition test over the rune list.
* Character case folding models the ASCII fragment of strings.ToLower and
  SQL LOWER (non-ASCII case mapping is outside the alphabets the claims
  exercise); whitespace splitting models the Latin-1 fragment of
  unicode.IsSpace used by strings.Fields.
-/

/-- A user record, mirroring struct User of main.go (ID, Username, Email,
Bio, Created). -/
structure User where
  id : Int
  username : String
  email : String
  bio : String
  created : String
deriving DecidableEq

/-- The in-memory cache map[int]*User, as an association list; insert
overwrites the entry with the same key. -/
def Cache := List (Int × User)
deriving instance DecidableEq for Cache

/-- Lookup in the cache map. -/
def cacheLookup (c : Cache) (k : Int) : Option User :=
  match c with
  | [] => none
  | (k2, v) :: t => if k2 == k then some v else cacheLookup t k

/-- Overwriting insert, modelling assignment into the Go map. -/
def cacheInsert (c : Cache) (k : Int) (v : User) : Cache :=
  match c with
  | [] => [(k, v)]
  | (k2, v2) :: t => if k2 == k then (k, v) :: t else (k2, v2) :: cacheInsert t k v

/-- Deletion from the cache map, modelling the Go delete builtin. -/
def cacheDelete (c : Cache) (k : Int) : Cache :=
  match c with
  | [] => []
  | (k2, v2) :: t => if k2 == k then cacheDelete t k else (k2, v2) :: cacheDelete t k

/-! ### Validator (validateUser, main.go lines 343-359) -/

/-- Character class of the username pattern [a-zA-Z0-9_]. -/
def isUsernameChar (c : Char) : Bool :=
  c.isAlpha || c.isDigit || c == '_'

/-- Anchored match of the username pattern: between 3 and 20 runes, all in
the class. -/
def usernameMatch (s : String) : Bool :=
  3 ≤ s.data.length && s.data.length ≤ 20 && s.data.all isUsernameChar

/-- Character class of the local part [a-zA-Z0-9._%+-]. -/
def isLocalChar (c : Char) : Bool :=
  c.isAlpha || c.isDigit || c == '.' || c == '_' || c == '%' || c == '+' || c == '-'

/-- Character class of the domain part [a-zA-Z0-9.-]. -/
def isDomainChar (c : Char) : Bool :=
  c.isAlpha || c.isDigit || c == '.' || c == '-'

/-- Match of the domain suffix of the email pattern: some split point j
with a nonempty run of domain characters, a dot, and an alphabetic TLD of
length at least 2. -/
def domainMatch (d : List Char) : Bool :=
  (List.range (d.length + 1)).any fun j =>
    !(d.take j).isEmpty && (d.take j).all isDomainChar &&
      match d.drop j with
      | '.' :: t => 2 ≤ t.length && t.all Char.isAlpha
      | _ => false

/-- Anchored match of the email pattern: some split point i with a
nonempty run of local characters, an at sign, and a matching domain. -/
def emailMatch (s : String) : Bool :=
  (List.range (s.data.length + 1)).any fun i =>
    !(s.data.take i).isEmpty && (s.data.take i).all isLocalChar &&
      match s.data.drop i with
      | '@' :: d => domainMatch d
      | _ => false

/-- The denylisted substring checked by strings.Contains. -/
def spamChars : List Char := ['s', 'p', 'a', 'm']

/-- Substring containment on rune lists (strings.Contains on ASCII
needles agrees with the rune-level reading on valid UTF-8). -/
def containsSub (needle hay : List Char) : Bool :=
  hay.tails.any fun t => needle.isPrefixOf t

/-- Kinds of validation failure; the constructor names which early return
of validateUser fires. -/
inductive VKind where
  | InvalidUsername
  | InvalidEmail
  | BioTooLong
  | BioRejected
deriving DecidableEq

/-- The check chain of validateUser: the source returns false at the
first failing check, in this order; the kind names that check.  The bio
length check is Go len, i.e. UTF-8 bytes. -/
def validateUserKind (u : User) : Option VKind :=
  if !usernameMatch u.username then some .InvalidUsername
  else if !emailMatch u.email then some .InvalidEmail
  else if 1000 < u.bio.utf8ByteSize then some .BioTooLong
  else if containsSub spamChars u.bio.data then some .BioRejected
  else none

/-- validateUser as in the source: true exactly when no check fails. -/
def validateUser (u : User) : Bool :=
  (validateUserKind u).isNone

/-! ### Bio normalization (processUserData, main.go lines 361-366) -/

/-- The Latin-1 fragment of unicode.IsSpace, as used by strings.Fields. -/
def goIsSpace (c : Char) : Bool :=
  c == ' ' || c == '\t' || c == '\n' || c == Char.ofNat 11 || c == Char.ofNat 12 ||
    c == '\r' || c == Char.ofNat 133 || c == Char.ofNat 160

/-- strings.Fields over the rune list: maximal runs of non-space runes,
accumulator-style so the function reduces structurally. -/
def fieldsAux : List Char → List Char → List (List Char)
  | [], acc => if acc.isEmpty then [] else [acc.reverse]
  | c :: t, acc =>
    if goIsSpace c then
      if acc.isEmpty then fieldsAux t [] else acc.reverse :: fieldsAux t []
    else fieldsAux t (c :: acc)

/-- strings.Join(strings.Fields(s), space): collapse whitespace runs to a
single space and trim the ends. -/
def normalizeBio (s : String) : String :=
  String.intercalate " " ((fieldsAux s.data []).map fun w => String.mk w)

/-- processUserData: copy the record and normalize only the bio of the
copy. -/
def processUserData (u : User) : User :=
  { u with bio := normalizeBio u.bio }

/-! ### Query text construction

The source builds every SQL statement with fmt.Sprintf or string
concatenation; these definitions reproduce the exact query text sent to
the store. -/

/-- A single-quote character, written by code point. -/
def sqc : String := String.mk [Char.ofNat 39]

/-- Query text of the insert in CreateUser (main.go lines 111-112), with
the RFC3339 clock reading passed in as now. -/
def createQuery (u : User) (now : String) : String :=
  "INSERT INTO users (username, email, bio, created) VALUES (" ++
    sqc ++ u.username ++ sqc ++ ", " ++ sqc ++ u.email ++ sqc ++ ", " ++
    sqc ++ u.bio ++ sqc ++ ", " ++ sqc ++ now ++ sqc ++ ") RETURNING id"

/-- Query text of the fetch in GetUser (main.go line 156). -/
def getQuery (id : Int) : String :=
  "SELECT * FROM users WHERE id = " ++ toString id

/-- Query text of the update in UpdateUser (main.go lines 262-263). -/
def updateQuery (u : User) (id : Int) : String :=
  "UPDATE users SET username=" ++ sqc ++ u.username ++ sqc ++
    ", email=" ++ sqc ++ u.email ++ sqc ++
    ", bio=" ++ sqc ++ u.bio ++ sqc ++ " WHERE id=" ++ toString id

/-- Query text of the search in SearchUsers (main.go lines 303-309); the
term has already been lower-cased by the handler. -/
def searchQuery (term : String) : String :=
  "\n\t\tSELECT id, username, email, bio, created \n\t\tFROM users \n\t\tWHERE LOWER(username) LIKE " ++
    sqc ++ "%" ++ term ++ "%" ++ sqc ++ " \n\t\t   OR LOWER(email) LIKE " ++
    sqc ++ "%" ++ term ++ "%" ++ sqc ++ " \n\t\t   OR LOWER(bio) LIKE " ++
    sqc ++ "%" ++ term ++ "%" ++ sqc

/-! ### Store and handlers as state transformers -/

/-- The store-side error class (connection or query failure); the
handlers surface it as a 500. -/
inductive SErr where
  | storeError
deriving DecidableEq

/-- Result of CreateUser. -/
inductive CreateResult where
  | invalid
  | ok (resp : User)
deriving DecidableEq

/-- CreateUser (main.go lines 91-130) on the success path of the store:
the store assigns newId, the handler interpolates the clock reading now
into the insert.  The handler scans only the returned id into the
record: the Created field of the response keeps whatever the request
body carried, while the stored row carries now.  The cache is populated
directly from the response record, with no re-fetch. -/
def createUser (store : List User) (c : Cache) (cand : User) (newId : Int)
    (now : String) : CreateResult × List User × Cache :=
  if validateUser cand then
    let row : User :=
      { id := newId, username := cand.username, email := cand.email,
        bio := cand.bio, created := now }
    let resp : User := { cand with id := newId }
    (.ok resp, store ++ [row], cacheInsert c newId resp)
  else (.invalid, store, c)

/-- FetchByID: the first row whose id matches. -/
def fetchByID (store : List User) (id : Int) : Option User :=
  store.find? fun u => u.id == id

/-- GetUser (main.go lines 132-182): on a cache hit, return the
normalized copy of the cached record without touching the cache; on a
miss, fetch, populate the cache with the raw fetched record, and return
its normalized copy; a missing row returns none (404) and leaves the
cache alone. -/
def getUser (store : List User) (c : Cache) (id : Int) : Option User × Cache :=
  match cacheLookup c id with
  | some u => (some (processUserData u), c)
  | none =>
    match fetchByID store id with
    | none => (none, c)
    | some u => (some (processUserData u), cacheInsert c id u)

/-- The row-scan loop of ListUsers (main.go lines 208-221): a row that
fails to decode aborts the whole response with a store error; otherwise
every row is normalized and accumulated in order. -/
def listScan : List (Option User) → Except SErr (List User)
  | [] => .ok []
  | none :: _ => .error .storeError
  | some u :: t =>
    match listScan t with
    | .error e => .error e
    | .ok us => .ok (processUserData u :: us)

/-- ListUsers (main.go lines 184-232): scan all rows strictly, then
backfill the cache with one insert per accumulated (already normalized)
record, keyed by its id.  The source takes the address of the
per-iteration loop variable; under current Go semantics each iteration
binds a fresh variable, so entry i receives a copy of users[i]. -/
def listUsers (rows : List (Option User)) (c : Cache) :
    Except SErr (List User × Cache) :=
  match listScan rows with
  | .error e => .error e
  | .ok us => .ok (us, us.foldl (fun cc u => cacheInsert cc u.id u) c)

/-- The row-scan loop of SearchUsers (main.go lines 320-331): a row that
fails to decode is skipped and accumulation continues. -/
def searchScan : List (Option User) → List User
  | [] => []
  | none :: t => searchScan t
  | some u :: t => processUserData u :: searchScan t

/-- Result of UpdateUser. -/
inductive UpdResult where
  | invalid
  | notFound
  | ok (resp : User)
deriving DecidableEq

/-- UpdateUser (main.go lines 234-286): validate, run the update (which
replaces the three mutable fields of every row whose id matches and
reports the number of affected rows), return notFound on zero affected
rows without touching the cache, else set the id on the echoed record
and invalidate the cache entry. -/
def updateUser (store : List User) (c : Cache) (id : Int) (cand : User) :
    UpdResult × List User × Cache :=
  if validateUser cand then
    let store2 := store.map fun r =>
      if r.id == id then
        { r with username := cand.username, email := cand.email, bio := cand.bio }
      else r
    let affected := (store.filter fun r => r.id == id).length
    if affected == 0 then (.notFound, store2, c)
    else (.ok { cand with id := id }, store2, cacheDelete c id)
  else (.invalid, store, c)

/-! ### The LIKE filter the search query asks the store to run -/

/-- SQL LIKE pattern matching (without the escape character): percent
matches any run of characters, underscore exactly one, anything else
itself. -/
def likeMatch : List Char → List Char → Bool
  | [], s => s.isEmpty
  | p :: ps, s =>
    if p == '%' then s.tails.any fun t => likeMatch ps t
    else
      match s with
      | [] => false
      | c :: t => (if p == '_' then true else c == p) && likeMatch ps t

/-- The rune list of a string lower-cased character by character (the
ASCII fragment of strings.ToLower and SQL LOWER). -/
def lowerChars (s : String) : List Char :=
  s.data.map Char.toLower

/-- The WHERE clause of the search query, as the store evaluates it on a
row (valid for terms that keep the interpolated pattern a literal, i.e.
terms without a quote or the escape character): LOWER(field) LIKE
pct-term-pct on each of the three fields. -/
def likeRowMatch (term : String) (u : User) : Bool :=
  let pat := '%' :: (lowerChars term ++ ['%'])
  likeMatch pat (lowerChars u.username) || likeMatch pat (lowerChars u.email) ||
    likeMatch pat (lowerChars u.bio)

/-- The row set the search query returns, in store order. -/
def searchFilter (term : String) (store : List User) : List User :=
  store.filter fun u => likeRowMatch term u

/-- The membership predicate the specification describes: the
lower-cased term appears as a substring of a lower-cased field. -/
def substrRowMatch (term : String) (u : User) : Bool :=
  containsSub (lowerChars term) (lowerChars u.username) ||
    containsSub (lowerChars term) (lowerChars u.email) ||
    containsSub (lowerChars term) (lowerChars u.bio)

/-! ### Concrete instances used by counterexamples and witnesses -/

/-- A record passing every validation rule. -/
def userValid : User :=
  { id := 0, username := "validUser1", email := "alice@example.com",
    bio := "hello world", created := "" }

/-- The username too short for the first rule. -/
def userBadName : User := { userValid with username := "ab" }

/-- A stored row whose bio holds a run of two spaces. -/
def rEx : User :=
  { id := 1, username := "alice", email := "alice@example.com",
    bio := "a  b", created := "t0" }

/-- A second stored row with a distinct id. -/
def rExB : User :=
  { id := 2, username := "bob", email := "bob@example.com",
    bio := "hi", created := "t1" }

/-- A clock reading as the handler formats it. -/
def nowW : String := "2024-01-01T00:00:00Z"

/-- A valid create or update candidate as decoded from a request body,
whose Created field is empty. -/
def candW : User :=
  { id := 0, username := "carol99", email := "carol@example.com",
    bio := "fresh bio", created := "" }

/-- A row whose username is hit by an underscore wildcard. -/
def uABC : User :=
  { id := 3, username := "abc", email := "c@d.ef", bio := "hello", created := "t2" }

/-- The first record of the search example of the specification. -/
def uAlice : User :=
  { id := 4, username := "alice", email := "alice@x.com", bio := "no match", created := "t3" }

/-- The second record of the search example of the specification. -/
def uBob : User :=
  { id := 5, username := "bob", email := "bob@x.com", bio := "user profile", created := "t4" }

/-- A batch-read row sequence whose second row fails to decode. -/
def rowsW : List (Option User) := [some rEx, none]

/-- A bio of 501 two-byte characters: 501 runes but 1002 UTF-8 bytes. -/
def bioMulti : String := String.mk (List.replicate 501 (Char.ofNat 233))

/-- A candidate whose bio is bioMulti. -/
def userMulti : User := { userValid with bio := bioMulti }

/-- A bio of 1001 one-byte characters. -/
def bioLong : String := String.mk (List.replicate 1001 'a')

/-- A candidate whose bio is bioLong. -/
def userLong : User := { userValid with bio := bioLong }

/-- Create candidates differing only in the bio field. -/
def uQa : User :=
  { id := 0, username := "dave", email := "dave@example.com", bio := "x", created := "" }

/-- The same candidate with the other bio. -/
def uQb : User := { uQa with bio := "y" }

/-! ### Helper lemmas shared by the claim theorems -/

theorem cacheLookup_insert_self (c : Cache) (k : Int) (v : User) :
    cacheLookup (cacheInsert c k v) k = some v := by
  induction c with
  | nil => simp [cacheInsert, cacheLookup]
  | cons h t ih =>
    obtain ⟨k2, v2⟩ := h
    by_cases hk : k2 = k
    · simp [cacheInsert, cacheLookup, hk]
    · simp [cacheInsert, cacheLookup, hk, ih]

theorem cacheLookup_insert_ne (c : Cache) (k : Int) (v : User) (k2 : Int)
    (h : k ≠ k2) : cacheLookup (cacheInsert c k v) k2 = cacheLookup c k2 := by
  induction c with
  | nil => simp [cacheInsert, cacheLookup, h]
  | cons p t ih =>
    obtain ⟨k3, v3⟩ := p
    by_cases hk : k3 = k
    · subst hk
      simp [cacheInsert, cacheLookup, h]
    · simp [cacheInsert, cacheLookup, hk, ih]

/-- The cache backfill loop of ListUsers, factored out. -/
def backfill (us : List User) (c : Cache) : Cache :=
  us.foldl (fun cc u => cacheInsert cc u.id u) c

theorem backfill_eq (us : List User) (c : Cache) :
    us.foldl (fun cc u => cacheInsert cc u.id u) c = backfill us c := rfl

theorem cacheLookup_backfill_not_mem (us : List User) (c : Cache) (k : Int)
    (h : ∀ u ∈ us, u.id ≠ k) :
    cacheLookup (backfill us c) k = cacheLookup c k := by
  induction us generalizing c with
  | nil => rfl
  | cons u t ih =>
    have := ih (cacheInsert c u.id u) fun v hv => h v (List.mem_cons_of_mem u hv)
    calc cacheLookup (backfill (u :: t) c) k
        = cacheLookup (backfill t (cacheInsert c u.id u)) k := rfl
      _ = cacheLookup (cacheInsert c u.id u) k := this
      _ = cacheLookup c k := cacheLookup_insert_ne c u.id u k (h u (List.mem_cons_self u t))

theorem cacheLookup_backfill_mem (us : List User) (c : Cache) (r : User)
    (hr : r ∈ us) (hd : us.Pairwise fun a b => a.id ≠ b.id) :
    cacheLookup (backfill us c) r.id = some r := by
  induction us generalizing c with
  | nil => cases hr
  | cons u t ih =>
    rcases List.mem_cons.mp hr with rfl | hmem
    · have hne : ∀ v ∈ t, v.id ≠ r.id := fun v hv =>
        fun he => (List.pairwise_cons.mp hd).1 v hv he.symm
      calc cacheLookup (backfill (r :: t) c) r.id
          = cacheLookup (backfill t (cacheInsert c r.id r)) r.id := rfl
        _ = cacheLookup (cacheInsert c r.id r) r.id :=
            cacheLookup_backfill_not_mem t _ r.id hne
        _ = some r := cacheLookup_insert_self c r.id r
    · exact ih (cacheInsert c u.id u) hmem (List.pairwise_cons.mp hd).2

theorem listScan_map_some (rs : List User) :
    listScan (rs.map some) = .ok (rs.map processUserData) := by
  induction rs with
  | nil => rfl
  | cons r t ih => simp [listScan, ih]

theorem likeMatch_nil (s : List Char) : likeMatch [] s = s.isEmpty := rfl

theorem likeMatch_pct (ps : List Char) (s : List Char) :
    likeMatch ('%' :: ps) s = s.tails.any fun t => likeMatch ps t := by
  simp [likeMatch]

theorem likeMatch_lit_nil (c : Char) (ps : List Char) (hp : c ≠ '%') :
    likeMatch (c :: ps) [] = false := by
  simp [likeMatch, hp]

theorem likeMatch_lit_cons (c : Char) (ps : List Char) (d : Char) (t : List Char)
    (hp : c ≠ '%') (hu : c ≠ '_') :
    likeMatch (c :: ps) (d :: t) = ((d == c) && likeMatch ps t) := by
  simp [likeMatch, hp, hu]

theorem likeMatch_append_pct (lit : List Char)
    (hl : ∀ c ∈ lit, c ≠ '%' ∧ c ≠ '_') (s : List Char) :
    likeMatch (lit ++ ['%']) s = lit.isPrefixOf s := by
  induction lit generalizing s with
  | nil =>
    have hmem : ([] : List Char) ∈ s.tails := (List.mem_tails _ _).mpr (List.nil_suffix)
    simp only [List.nil_append, List.isPrefixOf_nil_left]
    rw [likeMatch_pct]
    exact List.any_eq_true.mpr ⟨[], hmem, rfl⟩
  | cons c lit ih =>
    have hc := hl c (List.mem_cons_self c lit)
    have hl2 : ∀ d ∈ lit, d ≠ '%' ∧ d ≠ '_' := fun d hd => hl d (List.mem_cons_of_mem c hd)
    cases s with
    | nil =>
      rw [List.cons_append, likeMatch_lit_nil c _ hc.1]
      exact List.isPrefixOf_cons_nil.symm
    | cons d t =>
      rw [List.cons_append, likeMatch_lit_cons c _ d t hc.1 hc.2, ih hl2,
        List.isPrefixOf_cons₂]
      have hcomm : (d == c) = (c == d) := Bool.beq_comm
      rw [hcomm]

theorem likeMatch_pct_lit_pct (lit : List Char)
    (hl : ∀ c ∈ lit, c ≠ '%' ∧ c ≠ '_') (s : List Char) :
    likeMatch ('%' :: (lit ++ ['%'])) s = containsSub lit s := by
  rw [likeMatch_pct]
  unfold containsSub
  congr 1
  funext t
  exact likeMatch_append_pct lit hl t

theorem char_toNat_ofNat_small (n : Nat) (h : n < 55296) :
    (Char.ofNat n).toNat = n := by
  have hv : n.isValidChar := Or.inl h
  rw [Char.ofNat, dif_pos hv]
  simp [Char.ofNatAux, Char.toNat, UInt32.toNat]

theorem toLower_ne_low (c m : Char) (hm : m.toNat < 97) (h : c ≠ m) :
    c.toLower ≠ m := by
  unfold Char.toLower
  show (if c.toNat ≥ 65 ∧ c.toNat ≤ 90 then Char.ofNat (c.toNat + 32) else c) ≠ m
  by_cases hc : c.toNat ≥ 65 ∧ c.toNat ≤ 90
  · rw [if_pos hc]
    intro he
    have h2 := congrArg Char.toNat he
    rw [char_toNat_ofNat_small (c.toNat + 32) (by omega)] at h2
    omega
  · rw [if_neg hc]
    exact h

/-! ### Claim theorems -/

/-- Claim C1: the claim that every store operation uses parameterized
statements, so that two requests differing only in field values submit
identical query text, is refuted by the code: the handlers interpolate
the untrusted field values into the query text, and two create, update
or search requests that differ only in a field value submit different
query strings. -/
theorem C1_query_text_depends_on_field_values :
    uQa.username = uQb.username ∧ uQa.email = uQb.email ∧
    uQa.created = uQb.created ∧ uQa.bio ≠ uQb.bio ∧
    createQuery uQa nowW ≠ createQuery uQb nowW ∧
    updateQuery uQa 5 ≠ updateQuery uQb 5 ∧
    searchQuery "alpha" ≠ searchQuery "beta" := by
  refine ⟨rfl, rfl, rfl, by decide, by decide, by decide, by decide⟩

/-- Claim C5: decode-failure handling diverges between the two batch
reads: a failing row makes the list scan abort with a store error (and a
fully decoding row set is required for any output at all), while the
search scan skips exactly the failing rows and accumulates the rows that
decoded, in order. -/
theorem C5_list_strict_search_lenient (rows : List (Option User)) :
    (none ∈ rows → listScan rows = .error .storeError) ∧
    ((∀ x ∈ rows, x ≠ none) →
      listScan rows = .ok ((rows.filterMap id).map processUserData)) ∧
    searchScan rows = (rows.filterMap id).map processUserData := by
  induction rows with
  | nil => exact ⟨by simp, fun _ => rfl, rfl⟩
  | cons x t ih =>
    cases x with
    | none =>
      refine ⟨fun _ => rfl, fun hall => ?_, ?_⟩
      · exact absurd rfl (hall none (List.mem_cons_self none t))
      · simpa [searchScan] using ih.2.2
    | some u =>
      refine ⟨fun hmem => ?_, fun hall => ?_, ?_⟩
      · have ht : none ∈ t := by simpa using hmem
        simp [listScan, ih.1 ht]
      · have ht : ∀ x ∈ t, x ≠ none := fun x hx =>
          hall x (List.mem_cons_of_mem (some u) hx)
        simp [listScan, ih.2.1 ht]
      · simpa [searchScan] using ih.2.2

/-- Witness for C5 at a concrete row sequence whose second row fails to
decode: the list scan aborts while the search scan returns the first
row. -/
theorem C5_witness :
    none ∈ rowsW ∧ listScan rowsW = .error .storeError ∧
    searchScan rowsW = (rowsW.filterMap id).map processUserData :=
  ⟨by decide, (C5_list_strict_search_lenient rowsW).1 (by decide),
    (C5_list_strict_search_lenient rowsW).2.2⟩

/-- Claim C6: validation accepts exactly when the four rules hold, and
the check chain reports the first failing rule in the order username,
email, bio length (in bytes, as Go len measures strings), bio denylist;
the embedding is a pure function, so there are no side effects. -/
theorem C6_validate_rules_and_order (u : User) :
    (validateUser u = true ↔
      (usernameMatch u.username = true ∧ emailMatch u.email = true ∧
        u.bio.utf8ByteSize ≤ 1000 ∧ containsSub spamChars u.bio.data = false)) ∧
    (usernameMatch u.username = false →
      validateUserKind u = some .InvalidUsername) ∧
    (usernameMatch u.username = true → emailMatch u.email = false →
      validateUserKind u = some .InvalidEmail) ∧
    (usernameMatch u.username = true → emailMatch u.email = true →
      1000 < u.bio.utf8ByteSize → validateUserKind u = some .BioTooLong) ∧
    (usernameMatch u.username = true → emailMatch u.email = true →
      u.bio.utf8ByteSize ≤ 1000 → containsSub spamChars u.bio.data = true →
      validateUserKind u = some .BioRejected) := by
  unfold validateUser validateUserKind
  cases h1 : usernameMatch u.username <;>
    cases h2 : emailMatch u.email <;>
      by_cases h3 : 1000 < u.bio.utf8ByteSize <;>
        cases h4 : containsSub spamChars u.bio.data <;>
          (simp [h1, h2, h3, h4]; try omega)

/-- Witness for C6 at the examples of the specification: a two-letter
username reports InvalidUsername, a structurally broken email reports
InvalidEmail, a spam bio reports BioRejected, and the fully valid
candidate is accepted. -/
theorem C6_witness :
    usernameMatch "ab" = false ∧
    validateUserKind userBadName = some .InvalidUsername ∧
    validateUserKind { userValid with email := "not-an-email" } = some .InvalidEmail ∧
    validateUserKind { userValid with bio := "this is spam content" } = some .BioRejected ∧
    validateUser userValid = true :=
  ⟨by decide,
    (C6_validate_rules_and_order userBadName).2.1 (by decide),
    (C6_validate_rules_and_order { userValid with email := "not-an-email" }).2.2.1
      (by decide) (by decide),
    (C6_validate_rules_and_order { userValid with bio := "this is spam content" }).2.2.2.2
      (by decide) (by decide) (by decide) (by decide),
    ((C6_validate_rules_and_order userValid).1).mpr
      ⟨by decide, by decide, by decide, by decide⟩⟩

/-- Claim C8: an update whose id is absent from the store reports zero
affected rows, the handler returns notFound, and both the store and the
cache are left exactly as they were. -/
theorem C8_update_missing_id (store : List User) (c : Cache) (i : Int)
    (cand : User) (hv : validateUser cand = true)
    (hid : ∀ r ∈ store, r.id ≠ i) :
    updateUser store c i cand = (.notFound, store, c) := by
  have hf : (store.filter fun r => r.id == i) = [] :=
    List.filter_eq_nil_iff.mpr fun r hr => by simp [hid r hr]
  have hm : (store.map fun r =>
      if r.id = i then
        { r with username := cand.username, email := cand.email, bio := cand.bio }
      else r) = store := by
    have := List.map_congr_left (l := store)
      (f := fun r => if r.id = i then
        { r with username := cand.username, email := cand.email, bio := cand.bio }
      else r) (g := fun r => r) fun r hr => by simp [hid r hr]
    simpa using this
  simp [updateUser, hv, hf, hm]

/-- Witness for C8: updating id 999999 against a store holding only id 1
returns notFound and leaves the cache entry for id 1 in place. -/
theorem C8_witness :
    validateUser candW = true ∧ (∀ r ∈ [rEx], r.id ≠ 999999) ∧
    updateUser [rEx] [(1, rEx)] 999999 candW = (.notFound, [rEx], [(1, rEx)]) :=
  ⟨by decide, by decide,
    C8_update_missing_id [rEx] [(1, rEx)] 999999 candW (by decide) (by decide)⟩

/-- Claim C9: a repeated get with no intervening operation returns the
same output and leaves the cache where the first call put it, for every
store, cache and id: the miss path caches the raw record and returns its
normalized copy, and the hit path normalizes the cached raw record to
the same value. -/
theorem C9_get_idempotent (store : List User) (c : Cache) (i : Int) :
    getUser store ((getUser store c i).2) i = getUser store c i := by
  unfold getUser
  cases h1 : cacheLookup c i with
  | some u => simp [h1]
  | none =>
    cases h2 : fetchByID store i with
    | none => simp [h1, h2]
    | some u => simp [h1, h2, cacheLookup_insert_self]

/-- Claim C10: the bio length rule measures UTF-8 bytes, not characters:
every candidate whose bio exceeds 1000 bytes is rejected, and the
501-character bio of two-byte characters, although far below 1000
characters, fails validation with the length rule. -/
theorem C10_bio_length_in_bytes :
    (∀ u : User, 1000 < u.bio.utf8ByteSize → validateUser u = false) ∧
    bioMulti.data.length = 501 ∧ bioMulti.data.length ≤ 1000 ∧
    1000 < bioMulti.utf8ByteSize ∧
    validateUserKind userMulti = some .BioTooLong := by
  refine ⟨fun u h => ?_, by decide, by decide, by decide, by decide⟩
  unfold validateUser validateUserKind
  cases h1 : usernameMatch u.username <;>
    cases h2 : emailMatch u.email <;>
      simp [h1, h2, h]

/-- Witness for C10: a 1001-byte all-ASCII bio exceeds the byte limit
and is rejected. -/
theorem C10_witness :
    1000 < userLong.bio.utf8ByteSize ∧ validateUser userLong = false :=
  ⟨by decide, C10_bio_length_in_bytes.1 userLong (by decide)⟩

/-- Claim C2 counterexample: a fully successful list over a store whose
single record has a bio with a run of two spaces leaves the normalized
copy of the record in the cache, not the raw stored value, refuting the
claim that no cache entry written by List is normalized. -/
theorem C2_counterexample :
    listUsers [some rEx] [] = .ok ([processUserData rEx], [(1, processUserData rEx)]) ∧
    (processUserData rEx).bio ≠ rEx.bio :=
  ⟨rfl, by decide⟩

/-- Claim C2 as amended: the cache writes of Create and of Get on a
miss, and the rows Create writes to the store, carry the raw
un-normalized bio, and normalization happens only on the copies handed
back — but List backfills the cache with the normalized copies of the
fetched records. -/
theorem C2_normalization_flow :
    (∀ (store : List User) (c : Cache) (cand : User) (newId : Int) (now : String),
      validateUser cand = true →
      (createUser store c cand newId now).2.2 =
          cacheInsert c newId { cand with id := newId } ∧
        (createUser store c cand newId now).2.1 =
          store ++ [{ id := newId, username := cand.username, email := cand.email,
                      bio := cand.bio, created := now }]) ∧
    (∀ (store : List User) (c : Cache) (i : Int) (u : User),
      cacheLookup c i = none → fetchByID store i = some u →
      getUser store c i = (some (processUserData u), cacheInsert c i u)) ∧
    (∀ (r : User) (c : Cache),
      listUsers [some r] c = .ok ([processUserData r], cacheInsert c r.id (processUserData r))) := by
  refine ⟨fun store c cand newId now hv => ?_, fun store c i u h1 h2 => ?_,
    fun r c => ?_⟩
  · exact ⟨by simp [createUser, hv], by simp [createUser, hv]⟩
  · simp [getUser, h1, h2]
  · simp [listUsers, listScan]
    rfl

/-- Witness for C2: the raw candidate lands in the cache on create, the
raw fetched row lands in the cache on a get miss, and the normalized
copy lands in the cache on a list. -/
theorem C2_witness :
    validateUser candW = true ∧
    (createUser [] [] candW 7 nowW).2.2 = cacheInsert [] 7 { candW with id := 7 } ∧
    getUser [rEx] [] 1 = (some (processUserData rEx), cacheInsert [] 1 rEx) ∧
    listUsers [some rEx] [] = .ok ([processUserData rEx], cacheInsert [] rEx.id (processUserData rEx)) :=
  ⟨by decide,
    (C2_normalization_flow.1 [] [] candW 7 nowW (by decide)).1,
    C2_normalization_flow.2.1 [rEx] [] 1 rEx (by decide) (by decide),
    C2_normalization_flow.2.2 rEx []⟩

/-- Claim C3 counterexample: after a fully successful list over a store
holding one record whose bio has a whitespace run, the cache entry under
that id does not hold the record as fetched: the bio was normalized
before the backfill. -/
theorem C3_counterexample :
    listUsers [some rEx] [] = .ok ([processUserData rEx], [(1, processUserData rEx)]) ∧
    cacheLookup [(1, processUserData rEx)] rEx.id ≠ some rEx :=
  ⟨rfl, by decide⟩

/-- Claim C3 as amended: after a fully successful list over a store of
records with pairwise distinct ids, the cache maps the id of every
fetched record to the normalized copy of that same record (same id,
username, email and created, bio normalized), one insert per key, and
entries under other keys are untouched. -/
theorem C3_list_backfill (rs : List User) (c : Cache)
    (hd : rs.Pairwise fun a b => a.id ≠ b.id) :
    ∃ c2, listUsers (rs.map some) c = .ok (rs.map processUserData, c2) ∧
      (∀ r ∈ rs, cacheLookup c2 r.id = some (processUserData r)) ∧
      (∀ k, (∀ r ∈ rs, r.id ≠ k) → cacheLookup c2 k = cacheLookup c k) := by
  refine ⟨backfill (rs.map processUserData) c, ?_, fun r hr => ?_, fun k hk => ?_⟩
  · simp [listUsers, listScan_map_some, backfill_eq]
  · have hmem : processUserData r ∈ rs.map processUserData :=
      List.mem_map_of_mem processUserData hr
    have hd2 : (rs.map processUserData).Pairwise fun a b => a.id ≠ b.id := by
      refine List.Pairwise.map processUserData (fun a b hab => hab) hd
    have := cacheLookup_backfill_mem (rs.map processUserData) c
      (processUserData r) hmem hd2
    simpa using this
  · refine cacheLookup_backfill_not_mem (rs.map processUserData) c k ?_
    intro v hv
    obtain ⟨r, hr, rfl⟩ := List.mem_map.mp hv
    exact hk r hr

/-- Witness for C3 at a two-record store with distinct ids. -/
theorem C3_witness :
    (([rEx, rExB] : List User).Pairwise fun a b => a.id ≠ b.id) ∧
    ∃ c2, listUsers ([rEx, rExB].map some) [] = .ok ([rEx, rExB].map processUserData, c2) ∧
      (∀ r ∈ ([rEx, rExB] : List User), cacheLookup c2 r.id = some (processUserData r)) ∧
      (∀ k, (∀ r ∈ ([rEx, rExB] : List User), r.id ≠ k) →
        cacheLookup c2 k = cacheLookup [] k) :=
  ⟨by decide, C3_list_backfill [rEx, rExB] [] (by decide)⟩

/-- Claim C4 counterexample: a successful create echoes the Created
field that arrived in the request body (here empty), not the timestamp
interpolated into the insert, refuting the claim that the returned
record carries the store-assigned created timestamp. -/
theorem C4_counterexample :
    (createUser [] [] candW 7 nowW).1 = .ok { candW with id := 7 } ∧
    ({ candW with id := 7 } : User).created = "" ∧
    ({ candW with id := 7 } : User).created ≠ nowW ∧
    (createUser [] [] candW 7 nowW).2.1 =
      [{ id := 7, username := candW.username, email := candW.email,
         bio := candW.bio, created := nowW }] := by
  refine ⟨rfl, rfl, by decide, rfl⟩

/-- Claim C4 as amended: a successful create returns the record with the
store-assigned id and the submitted username, email and bio, with the
Created field left at its request-body value (the inserted row, not the
response, carries the insert-time timestamp), and populates the cache
with exactly that returned record without re-fetching. -/
theorem C4_create_response (store : List User) (c : Cache) (cand : User)
    (newId : Int) (now : String) (hv : validateUser cand = true) :
    ∃ resp, (createUser store c cand newId now).1 = .ok resp ∧
      resp.id = newId ∧ resp.username = cand.username ∧ resp.email = cand.email ∧
      resp.bio = cand.bio ∧ resp.created = cand.created ∧
      cacheLookup (createUser store c cand newId now).2.2 newId = some resp ∧
      (createUser store c cand newId now).2.1 =
        store ++ [{ id := newId, username := cand.username, email := cand.email,
                    bio := cand.bio, created := now }] := by
  refine ⟨{ cand with id := newId }, ?_, rfl, rfl, rfl, rfl, rfl, ?_, ?_⟩
  · simp [createUser, hv]
  · simp [createUser, hv, cacheLookup_insert_self]
  · simp [createUser, hv]

/-- Witness for C4 at a concrete candidate and store. -/
theorem C4_witness :
    validateUser candW = true ∧
    ∃ resp, (createUser [] [] candW 7 nowW).1 = .ok resp ∧
      resp.id = 7 ∧ resp.username = candW.username ∧ resp.email = candW.email ∧
      resp.bio = candW.bio ∧ resp.created = candW.created ∧
      cacheLookup (createUser [] [] candW 7 nowW).2.2 7 = some resp ∧
      (createUser [] [] candW 7 nowW).2.1 =
        [] ++ [{ id := 7, username := candW.username, email := candW.email,
                 bio := candW.bio, created := nowW }] :=
  ⟨by decide, C4_create_response [] [] candW 7 nowW (by decide)⟩

/-- Claim C7 counterexample: for the term a_c, whose underscore is a
LIKE wildcard, the search returns a record (username abc) in which the
lower-cased term does not occur as a substring of any field, refuting
substring containment as the membership condition for arbitrary
terms. -/
theorem C7_counterexample :
    searchFilter "a_c" [uABC] = [uABC] ∧
    substrRowMatch "a_c" uABC = false ∧
    "a_c".data ≠ [] := by
  refine ⟨by decide, by decide, by decide⟩

/-- Claim C7 as amended: for every non-empty term containing no LIKE
metacharacter (percent or underscore), no escape character and no
quote, the search returns exactly the records in which the lower-cased
term appears as a substring of the lower-cased username, email or bio,
preserving store order; terms with metacharacters are matched by LIKE
wildcard semantics instead, and a quote or escape character breaks the
interpolated query. -/
theorem C7_search_membership (term : String) (store : List User)
    (_hne : term.data ≠ [])
    (hmeta : ∀ ch ∈ term.data,
      ch ≠ '%' ∧ ch ≠ '_' ∧ ch ≠ Char.ofNat 92 ∧ ch ≠ Char.ofNat 39) :
    searchFilter term store = store.filter fun u => substrRowMatch term u := by
  have hl : ∀ ch ∈ lowerChars term, ch ≠ '%' ∧ ch ≠ '_' := by
    intro ch hch
    obtain ⟨c0, hc0, rfl⟩ := List.mem_map.mp hch
    have hm := hmeta c0 hc0
    exact ⟨toLower_ne_low c0 '%' (by decide) hm.1,
      toLower_ne_low c0 '_' (by decide) hm.2.1⟩
  unfold searchFilter
  refine List.filter_congr fun u hu => ?_
  show likeRowMatch term u = substrRowMatch term u
  unfold likeRowMatch substrRowMatch
  show (likeMatch ('%' :: (lowerChars term ++ ['%'])) (lowerChars u.username) ||
      likeMatch ('%' :: (lowerChars term ++ ['%'])) (lowerChars u.email) ||
      likeMatch ('%' :: (lowerChars term ++ ['%'])) (lowerChars u.bio)) = _
  rw [likeMatch_pct_lit_pct (lowerChars term) hl,
    likeMatch_pct_lit_pct (lowerChars term) hl,
    likeMatch_pct_lit_pct (lowerChars term) hl]

/-- Witness for C7 at the search example of the specification: for the
metacharacter-free term user over the two-record store, membership is
substring containment and only the second record is returned. -/
theorem C7_witness :
    "user".data ≠ [] ∧
    (∀ ch ∈ "user".data,
      ch ≠ '%' ∧ ch ≠ '_' ∧ ch ≠ Char.ofNat 92 ∧ ch ≠ Char.ofNat 39) ∧
    searchFilter "user" [uAlice, uBob] =
      ([uAlice, uBob].filter fun u => substrRowMatch "user" u) ∧
    searchFilter "user" [uAlice, uBob] = [uBob] :=
  ⟨by decide, by decide,
    C7_search_membership "user" [uAlice, uBob] (by decide) (by decide),
    by decide⟩
